import Mathlib

/-!
Verification of the streaming frontend of the oozo RAG chat application.

The definitions below are a shallow embedding of the streaming code in
`frontend/src/services/api.js` (the `sendMessage`, `streamMessage` and
`readStream` functions) and of the token-accumulating callback in
`frontend/src/App.js` (`handleSendMessage`).  JavaScript strings are
modelled as `List Char`; the built-in `JSON.parse` is a parameter
`jp : Str → Option JsonLite` of the parsing functions (with a concrete
instance `jsonLiteParse` used for concrete evaluations), recording only the
fields the code reads (`token`, `text`, `answer`).
-/

/-- JavaScript strings, modelled as lists of characters. -/
abbrev Str := List Char

/-- Whitespace characters removed by the JavaScript `String.prototype.trim`
(the ASCII ones, which are the only ones appearing in the protocol). -/
def jsWhitespaceChar (c : Char) : Bool :=
  c = ' ' || c = '\t' || c = '\n' || c = '\r' || c = '\x0b' || c = '\x0c'

/-- Left trim: drop leading whitespace. -/
def lTrim (s : Str) : Str := s.dropWhile jsWhitespaceChar

/-- Right trim: drop trailing whitespace. -/
def rTrim (s : Str) : Str := (s.reverse.dropWhile jsWhitespaceChar).reverse

/-- Model of the JavaScript `s.trim()`. -/
def jsTrim (s : Str) : Str := rTrim (lTrim s)

/-- Model of the JavaScript `s.startsWith(p)`: `strStarts p s` is true when
`p` is an initial segment of `s`. -/
def strStarts : Str → Str → Bool
  | [], _ => true
  | _ :: _, [] => false
  | p :: ps, c :: cs => p == c && strStarts ps cs

/-- Model of the JavaScript `s.includes(p)`. -/
def strContains : Str → Str → Bool
  | [], pat => pat.isEmpty
  | s@(_ :: t), pat => strStarts pat s || strContains t pat

/-- Split a buffer at the first newline, as `buffer.indexOf('\n')` followed
by the two `buffer.slice` calls do in `readStream`: returns the line before
the first `'\n'` and the rest after it, or `none` when the buffer holds no
newline. -/
def splitNL : Str → Option (Str × Str)
  | [] => none
  | c :: cs =>
    if c = '\n' then some ([], cs)
    else
      match splitNL cs with
      | some (l, r) => some (c :: l, r)
      | none => none

/-- The fields of a parsed JSON value that the streaming code reads:
`obj.token`, `obj.text` (stream records) and `data.answer` (whole-body
responses).  A field absent from the object is `none` (JavaScript
`undefined`). -/
structure JsonLite where
  token : Option Str
  text : Option Str
  answer : Option Str
deriving DecidableEq

/-- JavaScript truthiness of a string-or-undefined value: `undefined` and
the empty string are falsy. -/
def jsTruthy (s : Option Str) : Bool :=
  match s with
  | some t => !t.isEmpty
  | none => false

/-- Model of the JavaScript expression `a || b || ''` for string fields. -/
def jsOrText (a b : Option Str) : Str :=
  if jsTruthy a then a.getD [] else if jsTruthy b then b.getD [] else []

/-- The expression `obj.token || obj.text || ''` from `readStream` and the
EventSource `onmessage` handler. -/
def tokenOrText (o : JsonLite) : Str := jsOrText o.token o.text

/-- The `data:` record marker of the newline-delimited stream framing. -/
def dataMarker : Str := ['d', 'a', 't', 'a', ':']

/-- The terminal sentinel payload. -/
def doneSentinel : Str := ['[', 'D', 'O', 'N', 'E', ']']

/-- Classification of one complete line by `readStream`
(api.js lines 215-241): trim; skip empty lines; on a `data:` marker take the
trimmed payload, recognise `[DONE]`, JSON-decode payloads that look like
objects (emitting `obj.token || obj.text || ''` when truthy and the raw
payload if decoding throws); emit other non-empty trimmed lines verbatim.
Returns the emitted tokens and whether the terminal sentinel was seen. -/
def handleLine (jp : Str → Option JsonLite) (line : Str) : List Str × Bool :=
  let trimmed := jsTrim line
  if trimmed.isEmpty then ([], false)
  else if strStarts dataMarker trimmed then
    let payload := jsTrim (trimmed.drop 5)
    if payload = doneSentinel then ([], true)
    else if strStarts ['\x7b'] payload then
      match jp payload with
      | some o =>
        let text := tokenOrText o
        (if text.isEmpty then [] else [text], false)
      | none => ([payload], false)
    else (if payload.isEmpty then [] else [payload], false)
  else ([trimmed], false)

/-- Fuel-driven worker for the inner line loop of `readStream`; each
iteration shortens the buffer past a newline, so a fuel of the buffer's
length always suffices. -/
def runBufF (jp : Str → Option JsonLite) : Nat → Str → Str × Bool × List Str
  | 0, buf => (buf, false, [])
  | fuel + 1, buf =>
    match splitNL buf with
    | none => (buf, false, [])
    | some (line, rest) =>
      let (ts, d) := handleLine jp line
      if d then (rest, true, ts)
      else
        let (r, d', ts') := runBufF jp fuel rest
        (r, d', ts ++ ts')

/-- The inner `while ((idx = buffer.indexOf('\n')) !== -1)` loop of
`readStream`: repeatedly peel complete lines off the buffer, stopping at the
terminal sentinel (which `break`s, leaving the rest of the buffer
unprocessed).  Returns the remaining buffer, the done flag and the emitted
tokens in order. -/
def runBuf (jp : Str → Option JsonLite) (buf : Str) : Str × Bool × List Str :=
  runBufF jp buf.length buf

/-- The mutable state of the `readStream` read loop: the partial-line
buffer and the `doneAll` flag. -/
structure PState where
  buffer : Str
  doneAll : Bool
deriving DecidableEq

/-- Initial read-loop state: empty buffer, not done. -/
def pInit : PState := ⟨[], false⟩

/-- One iteration of the outer `while (!doneAll)` loop of `readStream` on
one decoded chunk: when `doneAll` is set no further chunk is read; otherwise
the chunk is appended to the buffer and complete lines are processed. -/
def feed (jp : Str → Option JsonLite) (st : PState) (chunk : Str) : PState × List Str :=
  if st.doneAll then (st, [])
  else
    let (r, d, ts) := runBuf jp (st.buffer ++ chunk)
    (⟨r, d⟩, ts)

/-- The whole read loop of `readStream` over a sequence of decoded chunks. -/
def feedAll (jp : Str → Option JsonLite) (st : PState) : List Str → PState × List Str
  | [] => (st, [])
  | c :: cs =>
    let (st1, ts) := feed jp st c
    let (st2, ts') := feedAll jp st1 cs
    (st2, ts ++ ts')

/-- Parse a JSON string literal body after the opening quote: the content up
to the closing quote and the remaining input (no escape sequences, which do
not occur in the concrete payloads considered here). -/
def parseStringLit : Str → Option (Str × Str)
  | [] => none
  | c :: cs =>
    if c = '"' then some ([], cs)
    else
      match parseStringLit cs with
      | some (s, r) => some (c :: s, r)
      | none => none

/-- Skip JSON whitespace. -/
def skipWs (s : Str) : Str := s.dropWhile jsWhitespaceChar

/-- Parse the members of a flat JSON object with string keys and string
values, after the opening brace: returns the key/value pairs and the input
after the closing brace.  Fuel-driven; callers supply the input length. -/
def parseMembersF : Nat → Str → Option (List (Str × Str) × Str)
  | 0, _ => none
  | fuel + 1, s =>
    match skipWs s with
    | '"' :: rest =>
      match parseStringLit rest with
      | none => none
      | some (key, r1) =>
        match skipWs r1 with
        | ':' :: r2 =>
          match skipWs r2 with
          | '"' :: r3 =>
            match parseStringLit r3 with
            | none => none
            | some (v, r4) =>
              match skipWs r4 with
              | ',' :: r5 =>
                match parseMembersF fuel r5 with
                | some (ms, r6) => some ((key, v) :: ms, r6)
                | none => none
              | '\x7d' :: r5 => some ([(key, v)], r5)
              | _ => none
          | _ => none
        | _ => none
    | _ => none

/-- Look up a key among parsed members (first occurrence, as the concrete
payloads considered here have no duplicate keys). -/
def lookupMember (ms : List (Str × Str)) (k : Str) : Option Str :=
  (ms.find? (fun m => m.1 == k)).map (fun m => m.2)

/-- Concrete instance of the `JSON.parse` parameter: the fragment of the
built-in JSON parser covering flat objects with string fields, which is the
shape of every payload the protocol carries; any other input fails (throws).
Used to evaluate the parsing model on concrete payloads. -/
def jsonLiteParse (s : Str) : Option JsonLite :=
  match skipWs s with
  | '\x7b' :: r =>
    match skipWs r with
    | '\x7d' :: r2 =>
      if (skipWs r2).isEmpty then some ⟨none, none, none⟩ else none
    | _ =>
      match parseMembersF s.length r with
      | some (ms, rest) =>
        if (skipWs rest).isEmpty then
          some ⟨lookupMember ms ['t', 'o', 'k', 'e', 'n'],
                lookupMember ms ['t', 'e', 'x', 't'],
                lookupMember ms ['a', 'n', 's', 'w', 'e', 'r']⟩
        else none
      | none => none
  | _ => none

/-- The EventSource `onmessage` handler of `streamMessage`
(api.js lines 118-141): recognise the `[DONE]` sentinel (closing the
session), JSON-decode payloads that look like objects — emitting
`obj.token || obj.text || ''` when truthy, or the raw payload when decoding
throws — and emit other truthy payloads verbatim (untrimmed).  Returns the
emitted tokens and whether the session was closed. -/
def esHandle (jp : Str → Option JsonLite) (payload : Str) : List Str × Bool :=
  if payload = doneSentinel then ([], true)
  else if !payload.isEmpty && strStarts ['\x7b'] payload then
    match jp payload with
    | some o =>
      let text := tokenOrText o
      (if text.isEmpty then [] else [text], false)
    | none => ([payload], false)
  else (if payload.isEmpty then [] else [payload], false)

/-- An EventSource session over a sequence of server events: once the
session is closed by `cleanup()` (`es.close()`, after the first `[DONE]`)
no further event is delivered to the handler. -/
def esRun (jp : Str → Option JsonLite) : Bool → List Str → Bool × List Str
  | closed, [] => (closed, [])
  | true, _ :: _ => (true, [])
  | false, p :: ps =>
    let (ts, d) := esHandle jp p
    let (c', ts') := esRun jp d ps
    (c', ts ++ ts')

/-- The observable parts of a fetch `Response` that `readStream` reads:
`ok`, `status`, the `content-type` header, the result of `response.json()`
(`none` when the body is not JSON, in which case `.json()` throws) and the
decoded body chunks delivered by the reader. -/
structure RespModel where
  ok : Bool
  status : Nat
  contentType : Str
  jsonBody : Option JsonLite
  bodyChunks : List Str

/-- The failures `readStream` can raise: a non-ok HTTP status, or a body
declared `application/json` that fails to decode. -/
inductive ReadErr where
  | httpErr (status : Nat)
  | jsonDecodeErr
deriving DecidableEq

/-- The content type marking a single JSON body. -/
def ctJson : Str :=
  ['a', 'p', 'p', 'l', 'i', 'c', 'a', 't', 'i', 'o', 'n', '/', 'j', 's', 'o', 'n']

/-- The `readStream` helper of `streamMessage` (api.js lines 182-244):
reject non-ok responses; short-circuit on an `application/json` content
type, emitting `data?.answer || ''` once when truthy; otherwise run the
chunked line parser over the body.  Returns the emitted token sequence. -/
def readStream (jp : Str → Option JsonLite) (r : RespModel) : Except ReadErr (List Str) :=
  if r.ok = false then .error (.httpErr r.status)
  else if strContains r.contentType ctJson then
    match r.jsonBody with
    | none => .error .jsonDecodeErr
    | some d =>
      let text := jsOrText d.answer none
      .ok (if text.isEmpty then [] else [text])
  else .ok (feedAll jp pInit r.bodyChunks).2

/-- The three transports `streamMessage` can attempt. -/
inductive Transport where
  | eventsource
  | postFetch
  | getFetch
deriving DecidableEq

/-- The transport attempts made by the fallback chain of `streamMessage`
(api.js lines 246-266), given whether the EventSource attempt and the POST
attempt (fetch plus its `readStream`) succeed: EventSource is always tried
first; on its failure POST is tried; on POST failure GET is tried. -/
def streamTransportTrace (esOk postOk : Bool) : List Transport :=
  .eventsource :: (if esOk then [] else .postFetch :: (if postOk then [] else [.getFetch]))

/-- A conversation entry as `handleSendMessage` in App.js keeps it: only the
fields the streaming callback touches. -/
structure Msg where
  id : Nat
  text : Str
  isStreaming : Bool
  isError : Bool
deriving DecidableEq

/-- The empty bot message pushed before streaming starts
(App.js lines 25-35). -/
def baseBotMsg (botMsgId : Nat) : Msg :=
  { id := botMsgId, text := [], isStreaming := true, isError := false }

/-- One `setMessages` update inside the token callback (App.js lines 52-66):
every message whose id matches the bot message gets the accumulated text. -/
def applyToken (botMsgId : Nat) (msgs : List Msg) (accumulated : Str) : List Msg :=
  msgs.map (fun m =>
    if m.id = botMsgId then { m with text := accumulated, isStreaming := true } else m)

/-- The token callback of `handleSendMessage` folded over a token sequence
(App.js lines 38-72): `accumulated += chunk` followed by the synchronous
`flushSync` state commit, per token. -/
def streamFold (botMsgId : Nat) (msgs : List Msg) (accumulated : Str) :
    List Str → Str × List Msg
  | [] => (accumulated, msgs)
  | t :: ts =>
    let acc' := accumulated ++ t
    streamFold botMsgId (applyToken botMsgId msgs acc') acc' ts

/-- Outcome of the whole `streamMessage` call as seen by `handleSendMessage`:
either it resolves (tokens delivered) or it throws after possibly delivering
some tokens. -/
inductive StreamOutcome where
  | success (tokens : List Str)
  | failure (deliveredTokens : List Str) (errMsg : Str)

/-- Outcome of the single non-streaming `sendMessage` fallback call. -/
inductive SendOutcome where
  | okResp (answer : Str) (sources : List Str)
  | failResp (errMsg : Str)

/-- The error-bubble text of App.js line 113, up to the interpolated
underlying message. -/
def errBubbleText : Str :=
  ("Извините, произошла ошибка при обработке вашего запроса: ").data

/-- The network actions `handleSendMessage` can issue for the answer text. -/
inductive NetAction where
  | callStreamMessage
  | callSendMessage
deriving DecidableEq

/-- Which answer-producing network calls `handleSendMessage` makes
(App.js lines 37-119): the streaming attempt always, and the non-streaming
`sendMessage` exactly when streaming threw — with no loop around either. -/
def fallbackActions (stream : StreamOutcome) : List NetAction :=
  match stream with
  | .success _ => [.callStreamMessage]
  | .failure _ _ => [.callStreamMessage, .callSendMessage]

/-- Final state of the bot message produced by `handleSendMessage`
(App.js lines 37-119) as a function of the streaming outcome and — when
streaming threw — the outcome of the single fallback call. -/
def handleSendFallback (botMsgId : Nat) (rest : List Msg)
    (stream : StreamOutcome) (send : SendOutcome) : List Msg :=
  let msgs0 := baseBotMsg botMsgId :: rest
  match stream with
  | .success toks =>
    let (_, msgs1) := streamFold botMsgId msgs0 [] toks
    msgs1.map (fun m => if m.id = botMsgId then { m with isStreaming := false } else m)
  | .failure part _ =>
    let (_, msgs1) := streamFold botMsgId msgs0 [] part
    match send with
    | .okResp ans _ =>
      msgs1.map (fun m =>
        if m.id = botMsgId then { m with text := ans, isStreaming := false } else m)
    | .failResp em =>
      msgs1.map (fun m =>
        if m.id = botMsgId then
          { m with text := errBubbleText ++ em, isError := true, isStreaming := false }
        else m)

/-- A JavaScript value passed as the `question` argument: a string, or any
non-string value together with its truthiness. -/
inductive JSValue where
  | str (s : Str)
  | nonString (truthy : Bool)

/-- The validation error message thrown by `sendMessage` and
`streamMessage`. -/
def questionError : Str :=
  ("Question is required and must be a non-empty string").data

/-- JavaScript truthiness of a `question` value. -/
def jsFalsy : JSValue → Bool
  | .str s => s.isEmpty
  | .nonString t => !t

/-- The `typeof question === 'string'` test. -/
def isStringV : JSValue → Bool
  | .str _ => true
  | .nonString _ => false

/-- The string carried by a `question` value (only read after the type
check has passed, so the non-string case is arbitrary). -/
def strOfV : JSValue → Str
  | .str s => s
  | .nonString _ => []

/-- The guard `!question || typeof question !== 'string' ||
question.trim() === ''` shared by `sendMessage` (api.js line 62) and
`streamMessage` (api.js line 84). -/
def questionInvalid (q : JSValue) : Bool :=
  jsFalsy q || !isStringV q || (jsTrim (strOfV q)).isEmpty

/-- Model of `sendMessage` up to the wire (api.js lines 61-73): the thrown
validation error, or the request body `{question, return_sources}` with the
question trimmed. -/
def sendMessage (q : JSValue) (returnSources : Bool) : Except Str (Str × Bool) :=
  if questionInvalid q then .error questionError
  else .ok (jsTrim (strOfV q), returnSources)

/-- Model of `streamMessage` up to the wire (api.js lines 83-180): the
thrown validation error, or the question text each transport sends — the
EventSource URL parameter, the POST body field and the GET URL parameter —
all three the trimmed question. -/
def streamMessageWire (q : JSValue) : Except Str (Str × Str × Str) :=
  if questionInvalid q then .error questionError
  else .ok (jsTrim (strOfV q), jsTrim (strOfV q), jsTrim (strOfV q))

/-- Timing behaviour of the EventSource attempt of `streamMessage`
(api.js lines 97-154), with times in seconds from query issuance:
the constructor can be unavailable (`tryEventSource` throws immediately,
before any timer interaction), the stream can error before completing
(`onerror` runs `cleanup()`, which closes the source and clears the shared
timer, then rejects), it can complete (`[DONE]` observed, `cleanup()` then
resolve), or it can stay connecting forever (nothing aborts an EventSource:
the shared AbortController is only wired to the fetch transports). -/
inductive ESSpec where
  | unavailableES
  | errorAt (t : Nat)
  | esDoneAt (t : Nat)
  | esNever
deriving DecidableEq

/-- Timing behaviour of one fetch transport attempt (the fetch plus its
`readStream`), relative to the attempt's start: it can reject naturally
after `d` seconds, resolve after `d` seconds, or stay pending until aborted
(forever when no abort comes). -/
inductive FetchSpec where
  | failAfter (d : Nat)
  | okAfter (d : Nat)
  | neverF
deriving DecidableEq

/-- Observable completion of one fetch attempt in absolute time. -/
inductive FetchRes where
  | fAbort (t : Nat)
  | fFail (t : Nat)
  | fOk (t : Nat)
  | fHang
deriving DecidableEq

/-- Observable completion of the whole `streamMessage` call in absolute
time: resolution, a non-timeout rejection, the `Request timeout` rejection
produced from an `AbortError` (api.js lines 269-271), or no completion at
all. -/
inductive StreamTiming where
  | doneAt (t : Nat)
  | errAt (t : Nat)
  | timeoutAt (t : Nat)
  | hangs
deriving DecidableEq

/-- The timeout budget armed at query issuance (api.js line 94), in
seconds. -/
def streamTimeoutBudget : Nat := 600

/-- Run one fetch attempt starting at absolute time `s`, under an optional
absolute abort time (the instant the shared controller fires, when its timer
is still armed): a pending fetch whose signal fires — or whose signal had
already fired when the fetch was issued — rejects with `AbortError`. -/
def runFetch (s : Nat) (abortT : Option Nat) : FetchSpec → FetchRes
  | .failAfter d =>
    match abortT with
    | some a => if a ≤ s ∨ a < s + d then .fAbort (max a s) else .fFail (s + d)
    | none => .fFail (s + d)
  | .okAfter d =>
    match abortT with
    | some a => if a ≤ s ∨ a < s + d then .fAbort (max a s) else .fOk (s + d)
    | none => .fOk (s + d)
  | .neverF =>
    match abortT with
    | some a => .fAbort (max a s)
    | none => .fHang

/-- The GET-fetch stage of `streamMessage` (api.js lines 264-275): a
natural rejection propagates to the caller; an `AbortError` becomes the
`Request timeout` rejection in the outer catch. -/
def gPhase (s : Nat) (abortT : Option Nat) (getF : FetchSpec) : StreamTiming :=
  match runFetch s abortT getF with
  | .fOk t => .doneAt t
  | .fFail t => .errAt t
  | .fAbort t => .timeoutAt t
  | .fHang => .hangs

/-- The POST-then-GET fetch stages of `streamMessage`
(api.js lines 255-266): any POST rejection — aborts included — is caught
and the GET attempt follows at that instant. -/
def fetchPhase (s : Nat) (abortT : Option Nat) (post getF : FetchSpec) : StreamTiming :=
  match runFetch s abortT post with
  | .fOk t => .doneAt t
  | .fFail t => gPhase t abortT getF
  | .fAbort t => gPhase t abortT getF
  | .fHang => .hangs

/-- Timing model of the whole `streamMessage` transport chain
(api.js lines 93-275).  The timer armed at issuance fires at
`streamTimeoutBudget` unless cleared first; the EventSource `cleanup()`
clears it both on completion and on error, so when the EventSource attempt
fails before the deadline the fetch stages run with no abort time, while a
failure after the deadline leaves the controller already aborted. -/
def streamTiming (es : ESSpec) (post getF : FetchSpec) : StreamTiming :=
  match es with
  | .esDoneAt t => .doneAt t
  | .esNever => .hangs
  | .unavailableES => fetchPhase 0 (some streamTimeoutBudget) post getF
  | .errorAt t =>
    if t < streamTimeoutBudget then fetchPhase t none post getF
    else fetchPhase t (some streamTimeoutBudget) post getF

theorem splitNL_length : ∀ {buf l r : Str}, splitNL buf = some (l, r) → r.length < buf.length := by
  intro buf
  induction buf with
  | nil => intro l r h; simp [splitNL] at h
  | cons c cs ih =>
    intro l r h
    simp only [splitNL] at h
    by_cases hc : c = '\n'
    · simp [hc] at h
      simp [h.2.symm, List.length_cons]
    · simp [hc] at h
      cases hs : splitNL cs with
      | none => rw [hs] at h; simp at h
      | some p =>
        rw [hs] at h
        cases p with
        | mk l0 r0 =>
          simp at h
          have := ih hs
          simp [← h.2, List.length_cons]
          omega

theorem runBufF_nil (jp : Str → Option JsonLite) : ∀ f : Nat, runBufF jp f [] = ([], false, []) := by
  intro f
  cases f with
  | zero => rfl
  | succ g => simp [runBufF, splitNL]

theorem runBufF_congr (jp : Str → Option JsonLite) :
    ∀ (f1 f2 : Nat) (buf : Str), buf.length ≤ f1 → buf.length ≤ f2 →
      runBufF jp f1 buf = runBufF jp f2 buf := by
  intro f1
  induction f1 with
  | zero =>
    intro f2 buf h1 _
    have hb : buf = [] := List.length_eq_zero.mp (Nat.le_zero.mp h1)
    subst hb
    rw [runBufF_nil, runBufF_nil]
  | succ g ih =>
    intro f2 buf h1 h2
    cases f2 with
    | zero =>
      have hb : buf = [] := List.length_eq_zero.mp (Nat.le_zero.mp h2)
      subst hb
      rw [runBufF_nil, runBufF_nil]
    | succ g2 =>
      simp only [runBufF]
      cases hs : splitNL buf with
      | none => rfl
      | some p =>
        obtain ⟨line, rest⟩ := p
        have hlen := splitNL_length hs
        have hr1 : rest.length ≤ g := by omega
        have hr2 : rest.length ≤ g2 := by omega
        simp only [ih g2 rest hr1 hr2]

theorem runBuf_unfold (jp : Str → Option JsonLite) (buf : Str) :
    runBuf jp buf =
      match splitNL buf with
      | none => (buf, false, [])
      | some (line, rest) =>
        let (ts, d) := handleLine jp line
        if d then (rest, true, ts)
        else
          let (r, d', ts') := runBuf jp rest
          (r, d', ts ++ ts') := by
  cases buf with
  | nil => simp [runBuf, runBufF_nil, splitNL]
  | cons c cs =>
    show runBufF jp (cs.length + 1) (c :: cs) = _
    simp only [runBufF]
    cases hs : splitNL (c :: cs) with
    | none => rfl
    | some p =>
      obtain ⟨line, rest⟩ := p
      have hlen := splitNL_length hs
      have : runBufF jp cs.length rest = runBuf jp rest := by
        apply runBufF_congr
        · simp at hlen; omega
        · exact Nat.le_refl _
      simp only [this]

theorem runBuf_eq_none {jp : Str → Option JsonLite} {buf : Str} (h : splitNL buf = none) :
    runBuf jp buf = (buf, false, []) := by
  rw [runBuf_unfold, h]

theorem runBuf_eq_some {jp : Str → Option JsonLite} {buf line rest : Str}
    (h : splitNL buf = some (line, rest)) :
    runBuf jp buf =
      (let (ts, d) := handleLine jp line
       if d then (rest, true, ts)
       else
         let (r, d', ts') := runBuf jp rest
         (r, d', ts ++ ts')) := by
  rw [runBuf_unfold, h]

theorem splitNL_append_some {a l r : Str} (b : Str) (h : splitNL a = some (l, r)) :
    splitNL (a ++ b) = some (l, r ++ b) := by
  induction a generalizing l r with
  | nil => simp [splitNL] at h
  | cons c cs ih =>
    simp only [List.cons_append, splitNL, List.append_eq] at h ⊢
    by_cases hc : c = '
'
    · rw [if_pos hc] at h ⊢
      injection h with hpair
      have h1 : l = [] := congrArg Prod.fst hpair.symm
      have h2 : r = cs := congrArg Prod.snd hpair.symm
      subst h1
      subst h2
      rfl
    · rw [if_neg hc] at h ⊢
      cases hs : splitNL cs with
      | none => rw [hs] at h; cases h
      | some p =>
        obtain ⟨l0, r0⟩ := p
        rw [hs] at h
        injection h with hpair
        have h1 : l = c :: l0 := congrArg Prod.fst hpair.symm
        have h2 : r = r0 := congrArg Prod.snd hpair.symm
        subst h1
        subst h2
        rw [ih hs]

theorem splitNL_append_none {a : Str} (b : Str) (h : splitNL a = none) :
    splitNL (a ++ b) =
      match splitNL b with
      | none => none
      | some (l, r) => some (a ++ l, r) := by
  induction a with
  | nil =>
    simp only [List.nil_append]
    cases hb : splitNL b with
    | none => rfl
    | some p =>
      obtain ⟨l, r⟩ := p
      rfl
  | cons c cs ih =>
    simp only [splitNL] at h
    by_cases hc : c = '
'
    · rw [if_pos hc] at h
      cases h
    · rw [if_neg hc] at h
      cases hs : splitNL cs with
      | some p =>
        obtain ⟨l0, r0⟩ := p
        rw [hs] at h
        cases h
      | none =>
        simp only [List.cons_append, splitNL, List.append_eq]
        rw [if_neg hc, ih hs]
        cases hb : splitNL b with
        | none => rfl
        | some p =>
          obtain ⟨l, r⟩ := p
          rfl

theorem runBuf_append (jp : Str → Option JsonLite) (a b : Str) :
    runBuf jp (a ++ b) =
      if (runBuf jp a).2.1 then ((runBuf jp a).1 ++ b, true, (runBuf jp a).2.2)
      else ((runBuf jp ((runBuf jp a).1 ++ b)).1,
            (runBuf jp ((runBuf jp a).1 ++ b)).2.1,
            (runBuf jp a).2.2 ++ (runBuf jp ((runBuf jp a).1 ++ b)).2.2) := by
  have H : ∀ (n : Nat) (a : Str), a.length ≤ n → ∀ b : Str,
      runBuf jp (a ++ b) =
        if (runBuf jp a).2.1 then ((runBuf jp a).1 ++ b, true, (runBuf jp a).2.2)
        else ((runBuf jp ((runBuf jp a).1 ++ b)).1,
              (runBuf jp ((runBuf jp a).1 ++ b)).2.1,
              (runBuf jp a).2.2 ++ (runBuf jp ((runBuf jp a).1 ++ b)).2.2) := by
    intro n
    induction n with
    | zero =>
      intro a ha b
      have haa : a = [] := List.length_eq_zero.mp (Nat.le_zero.mp ha)
      subst haa
      have h0 : runBuf jp ([] : Str) = ([], false, []) := runBuf_eq_none rfl
      rw [h0]
      simp
    | succ n ih =>
      intro a ha b
      cases hs : splitNL a with
      | none =>
        rw [runBuf_eq_none hs]
        simp
      | some p =>
        obtain ⟨line, rest⟩ := p
        have hsab := splitNL_append_some b hs
        rw [runBuf_eq_some hsab, runBuf_eq_some hs]
        rcases hHL : handleLine jp line with ⟨ts, d⟩
        have hrest : rest.length ≤ n := by
          have := splitNL_length hs
          omega
        cases d with
        | true => simp
        | false =>
          have ihr := ih rest hrest b
          rcases hR : runBuf jp rest with ⟨r1, d1, ts1⟩
          rw [hR] at ihr
          cases d1 with
          | true =>
            simp only at ihr
            simp [ihr]
          | false =>
            simp only at ihr
            simp [ihr, List.append_assoc]
  exact H a.length a (Nat.le_refl _) b

theorem feed_done {jp : Str → Option JsonLite} {st : PState} (chunk : Str)
    (h : st.doneAll = true) : feed jp st chunk = (st, []) := by
  simp [feed, h]

theorem feed_append (jp : Str → Option JsonLite) (st : PState) (a b : Str) :
    (feed jp st (a ++ b)).2 = (feed jp st a).2 ++ (feed jp (feed jp st a).1 b).2 := by
  by_cases h : st.doneAll
  · simp [feed, h]
  · have hb : st.doneAll = false := by simp [h]
    rcases hR : runBuf jp (st.buffer ++ a) with ⟨r, d, ts⟩
    have hAp := runBuf_append jp (st.buffer ++ a) b
    rw [hR] at hAp
    cases d with
    | true =>
      simp at hAp
      simp [feed, hb, hAp, hR]
    | false =>
      simp at hAp
      simp [feed, hb, hAp, hR]

theorem feedAll_done {jp : Str → Option JsonLite} {st : PState} (h : st.doneAll = true) :
    ∀ cs : List Str, feedAll jp st cs = (st, []) := by
  intro cs
  induction cs with
  | nil => rfl
  | cons c cs ih => simp [feedAll, feed_done c h, ih]

theorem feedAll_split (jp : Str → Option JsonLite) :
    ∀ (cs cs' : List Str) (st : PState),
      (feedAll jp st (cs ++ cs')).2 =
        (feedAll jp st cs).2 ++ (feedAll jp (feedAll jp st cs).1 cs').2 := by
  intro cs
  induction cs with
  | nil => intro cs' st; simp [feedAll]
  | cons c cs ih =>
    intro cs' st
    rcases hF : feed jp st c with ⟨st1, ts⟩
    rcases h1 : feedAll jp st1 cs with ⟨st2, ts1⟩
    rcases h2 : feedAll jp st2 cs' with ⟨st3, ts2⟩
    rcases hx : feedAll jp st1 (cs ++ cs') with ⟨stx, tsx⟩
    have hi := ih cs' st1
    rw [h1, h2, hx] at hi
    simp only at hi
    simp [feedAll, hF, h1, h2, hx, hi, List.append_assoc]

theorem feedAll_cons (jp : Str → Option JsonLite) (st : PState) (c : Str) (cs : List Str) :
    feedAll jp st (c :: cs) =
      ((feedAll jp (feed jp st c).1 cs).1,
       (feed jp st c).2 ++ (feedAll jp (feed jp st c).1 cs).2) := by
  rcases hF : feed jp st c with ⟨st1, ts⟩
  rcases hA : feedAll jp st1 cs with ⟨st2, ts2⟩
  simp [feedAll, hF, hA]

theorem feedAll_chunk_concat (jp : Str → Option JsonLite) :
    ∀ (cs : List Str) (c : Str) (st : PState),
      (feedAll jp st (c :: cs)).2 = (feed jp st (c ++ cs.flatten)).2 := by
  intro cs
  induction cs with
  | nil =>
    intro c st
    rcases hF : feed jp st c with ⟨st1, ts⟩
    simp [feedAll, hF]
  | cons c' cs ih =>
    intro c st
    rcases hF : feed jp st c with ⟨st1, ts⟩
    rcases hG : feedAll jp st1 (c' :: cs) with ⟨stg, tsg⟩
    have step : (feedAll jp st (c :: c' :: cs)).2 = ts ++ tsg := by
      rw [feedAll_cons]
      simp [hF, hG]
    have hi := ih c' st1
    rw [hG] at hi
    simp only at hi
    have hfa := feed_append jp st c (c' ++ cs.flatten)
    rw [hF] at hfa
    simp at hfa
    rw [step, hi]
    simp only [List.flatten_cons]
    rw [hfa]

theorem esRun_closed (jp : Str → Option JsonLite) : ∀ ps : List Str, esRun jp true ps = (true, []) := by
  intro ps
  cases ps with
  | nil => rfl
  | cons p ps => rfl

theorem esRun_done_absorb (jp : Str → Option JsonLite) :
    ∀ (ps : List Str) (c : Bool) (ps' : List Str), (esRun jp c ps).1 = true →
      (esRun jp c (ps ++ ps')).2 = (esRun jp c ps).2 := by
  intro ps
  induction ps with
  | nil =>
    intro c ps' h
    simp [esRun] at h
    subst h
    simp [esRun_closed, esRun]
  | cons p ps ih =>
    intro c ps' h
    cases c with
    | true => simp [esRun_closed]
    | false =>
      rcases hH : esHandle jp p with ⟨ts, d⟩
      rcases hE : esRun jp d ps with ⟨c2, ts2⟩
      have h' : (esRun jp d ps).1 = true := by
        simp only [esRun, hH] at h
        rcases hE2 : esRun jp d ps with ⟨c3, ts3⟩
        rw [hE2] at h
        simp at h
        simp [hE2, h]
      have := ih d ps' h'
      simp only [List.cons_append, esRun, hH]
      rw [hE] at this ⊢
      rcases hE3 : esRun jp d (ps ++ ps') with ⟨c4, ts4⟩
      rw [hE3] at this
      simp only at this
      simp [this]

theorem runFetch_none_no_abort (s : Nat) (f : FetchSpec) :
    ∀ t, runFetch s none f ≠ .fAbort t := by
  intro t
  cases f <;> simp [runFetch]

theorem gPhase_none_no_timeout (s : Nat) (getF : FetchSpec) :
    ∀ u, gPhase s none getF ≠ .timeoutAt u := by
  intro u
  cases getF <;> simp [gPhase, runFetch]

theorem fetchPhase_none_no_timeout (s : Nat) (post getF : FetchSpec) :
    ∀ u, fetchPhase s none post getF ≠ .timeoutAt u := by
  intro u
  cases post <;> simp [fetchPhase, runFetch] <;> exact gPhase_none_no_timeout _ _ u

theorem dropWhile_ws_idem (l : Str) :
    (l.dropWhile jsWhitespaceChar).dropWhile jsWhitespaceChar = l.dropWhile jsWhitespaceChar := by
  induction l with
  | nil => rfl
  | cons c cs ih =>
    cases h : jsWhitespaceChar c with
    | true => simp [List.dropWhile_cons, h, ih]
    | false => simp [List.dropWhile_cons, h]

theorem lTrim_idem (s : Str) : lTrim (lTrim s) = lTrim s := dropWhile_ws_idem s

theorem rTrim_idem (s : Str) : rTrim (rTrim s) = rTrim s := by
  unfold rTrim
  rw [List.reverse_reverse, dropWhile_ws_idem]

theorem rTrim_append_of_ne {b : Str} (a : Str) (h : rTrim b ≠ []) :
    rTrim (a ++ b) = a ++ rTrim b := by
  unfold rTrim at h ⊢
  rw [List.reverse_append, List.dropWhile_append]
  have hne : (List.dropWhile jsWhitespaceChar b.reverse).isEmpty = false := by
    rcases hdw : List.dropWhile jsWhitespaceChar b.reverse with _ | ⟨x, xs⟩
    · exact absurd (by rw [hdw]; rfl) h
    · rfl
  rw [hne]
  simp

theorem rTrim_prefix (s : Str) : ∃ w, rTrim s ++ w = s := by
  obtain ⟨w, hw⟩ := List.dropWhile_suffix (l := s.reverse) jsWhitespaceChar
  refine ⟨w.reverse, ?_⟩
  unfold rTrim
  rw [← List.reverse_append, hw, List.reverse_reverse]

theorem lTrim_cons_not_ws {c : Char} (cs : Str) (h : jsWhitespaceChar c = false) :
    lTrim (c :: cs) = c :: cs := by
  simp [lTrim, List.dropWhile_cons, h]

theorem jsTrim_idem (s : Str) : jsTrim (jsTrim s) = jsTrim s := by
  unfold jsTrim
  have hlu : lTrim (lTrim s) = lTrim s := lTrim_idem s
  have hl : lTrim (rTrim (lTrim s)) = rTrim (lTrim s) := by
    cases hr : rTrim (lTrim s) with
    | nil => rfl
    | cons c cs =>
      obtain ⟨w, hw⟩ := rTrim_prefix (lTrim s)
      rw [hr] at hw
      have hu2 : lTrim s = c :: (cs ++ w) := by rw [← hw, List.cons_append]
      have hcws : jsWhitespaceChar c = false := by
        cases hx : jsWhitespaceChar c with
        | false => rfl
        | true =>
          exfalso
          have heq : lTrim (lTrim s) = lTrim (cs ++ w) := by
            rw [hu2, lTrim, List.dropWhile_cons, hx]
            rfl
          rw [hlu, hu2] at heq
          have hlen : (lTrim (cs ++ w)).length ≤ (cs ++ w).length :=
            (List.dropWhile_suffix jsWhitespaceChar).length_le
          rw [← heq] at hlen
          simp [List.length_cons] at hlen
      exact lTrim_cons_not_ws cs hcws
  rw [hl, rTrim_idem]

theorem strStarts_append (a b : Str) : strStarts a (a ++ b) = true := by
  induction a with
  | nil => rfl
  | cons c cs ih => simp [strStarts, ih]

theorem strStarts_cons_head : ∀ {p : Char} {s : Str}, strStarts [p] s = true →
    ∃ t, s = p :: t := by
  intro p s h
  cases s with
  | nil => cases h
  | cons c cs =>
    simp [strStarts] at h
    exact ⟨cs, by rw [h]⟩

theorem streamFold_acc (botId : Nat) :
    ∀ (ts : List Str) (msgs : List Msg) (acc : Str),
      (streamFold botId msgs acc ts).1 = acc ++ ts.flatten := by
  intro ts
  induction ts with
  | nil => intro msgs acc; simp [streamFold]
  | cons t ts ih =>
    intro msgs acc
    simp only [streamFold, List.flatten_cons]
    rw [ih]
    simp [List.append_assoc]

theorem streamFold_bot_text (botId : Nat) :
    ∀ (ts : List Str) (msgs : List Msg) (acc : Str), ts ≠ [] →
      ∀ m ∈ (streamFold botId msgs acc ts).2, m.id = botId →
        m.text = acc ++ ts.flatten := by
  intro ts
  induction ts with
  | nil => intro msgs acc h; exact absurd rfl h
  | cons t ts ih =>
    intro msgs acc _ m hm hid
    cases ts with
    | nil =>
      simp only [streamFold] at hm
      obtain ⟨m0, hm0, hEq⟩ := List.mem_map.mp hm
      by_cases h0 : m0.id = botId
      · rw [← hEq]
        simp [h0, List.flatten_cons]
      · rw [if_neg h0] at hEq
        rw [← hEq] at hid
        exact absurd hid h0
    | cons t2 ts2 =>
      have := ih (applyToken botId msgs (acc ++ t)) (acc ++ t) (by simp) m
      simp only [streamFold] at hm
      have hres := this hm hid
      rw [hres]
      simp [List.flatten_cons, List.append_assoc]

/-- Claim C2: `streamMessage` attempts transports in the fixed priority
order — persistent event-stream GET first, then chunked POST fetch, then
chunked GET fetch; after an event-stream failure the next attempt is always
the POST transport, and the GET transport is attempted only after the POST
transport has also failed. -/
theorem c2_transport_order (esOk postOk : Bool) :
    (streamTransportTrace esOk postOk).head? = some .eventsource ∧
    (esOk = false → (streamTransportTrace esOk postOk).get? 1 = some .postFetch) ∧
    (Transport.getFetch ∈ streamTransportTrace esOk postOk →
      esOk = false ∧ postOk = false ∧
      streamTransportTrace esOk postOk = [.eventsource, .postFetch, .getFetch]) := by
  cases esOk <;> cases postOk <;> simp [streamTransportTrace]

/-- Witness for C2 at the concrete input where the event-stream and POST
transports both fail. -/
theorem c2_transport_order_witness :
    (streamTransportTrace false false).get? 1 = some Transport.postFetch ∧
    streamTransportTrace false false = [.eventsource, .postFetch, .getFetch] :=
  ⟨(c2_transport_order false false).2.1 rfl,
   ((c2_transport_order false false).2.2 (by decide)).2.2⟩

/-- Claim C3: for every token sequence `T` delivered to the callback, the
final accumulator equals the concatenation of `T` in delivery order with no
separators, and after each token the bot message's visible text equals the
concatenation of the tokens delivered so far. -/
theorem c3_accumulator_concat (botMsgId : Nat) (rest : List Msg) (T : List Str) :
    (streamFold botMsgId (baseBotMsg botMsgId :: rest) [] T).1 = T.flatten ∧
    (∀ i, i < T.length →
      ∀ m ∈ (streamFold botMsgId (baseBotMsg botMsgId :: rest) [] (T.take (i + 1))).2,
        m.id = botMsgId → m.text = (T.take (i + 1)).flatten) := by
  constructor
  · rw [streamFold_acc]
    simp
  · intro i hi m hm hid
    have hne : T.take (i + 1) ≠ [] := by
      rw [Ne, List.take_eq_nil_iff]
      rintro (h | h)
      · cases h
      · subst h; simp at hi
    have := streamFold_bot_text botMsgId (T.take (i + 1))
      (baseBotMsg botMsgId :: rest) [] hne m hm hid
    rw [this]
    simp

/-- Witness for C3 on a concrete two-token stream. -/
theorem c3_accumulator_concat_witness :
    (streamFold 1 [baseBotMsg 1] [] [("ab").data, ("c").data]).1 =
      [("ab").data, ("c").data].flatten ∧
    (Msg.mk 1 (("abc").data) true false).text =
      (([("ab").data, ("c").data]).take 2).flatten :=
  ⟨(c3_accumulator_concat 1 [] [("ab").data, ("c").data]).1,
   (c3_accumulator_concat 1 [] [("ab").data, ("c").data]).2 1 (by decide)
     (Msg.mk 1 (("abc").data) true false) (by decide) rfl⟩

/-- Claim C10: for every `question` that is not a string, is empty or is
whitespace-only, both `sendMessage` and `streamMessage` throw the error
`Question is required and must be a non-empty string` before any request is
built; for every accepted question the text put on the wire (request body or
URL parameter, by every transport) is the question with surrounding
whitespace trimmed. -/
theorem c10_question_validation (q : JSValue) :
    (questionInvalid q = true ↔ (isStringV q = false ∨ jsTrim (strOfV q) = [])) ∧
    (questionInvalid q = true →
      sendMessage q true = .error questionError ∧
      streamMessageWire q = .error questionError) ∧
    (∀ s : Str, q = .str s → questionInvalid q = false →
      sendMessage q true = .ok (jsTrim s, true) ∧
      streamMessageWire q = .ok (jsTrim s, jsTrim s, jsTrim s)) := by
  refine ⟨?_, ?_, ?_⟩
  · cases q with
    | str s =>
      simp only [questionInvalid, jsFalsy, isStringV, strOfV, Bool.not_true, Bool.or_false,
        Bool.or_eq_true, List.isEmpty_iff]
      constructor
      · rintro (h | h)
        · right; rw [h]; rfl
        · right; exact h
      · rintro (h | h)
        · cases h
        · right; exact h
    | nonString t =>
      simp [questionInvalid, isStringV]
  · intro h
    constructor
    · simp [sendMessage, h]
    · simp [streamMessageWire, h]
  · rintro s rfl h
    constructor
    · simp [sendMessage, h, strOfV]
    · simp [streamMessageWire, h, strOfV]

/-- Witness for C10: a padded question is accepted and sent trimmed; the
empty string is rejected with the exact error text. -/
theorem c10_question_validation_witness :
    sendMessage (JSValue.str (("  hi  ").data)) true = .ok ((("hi").data), true) ∧
    streamMessageWire (JSValue.str (("  hi  ").data)) =
      .ok ((("hi").data), (("hi").data), (("hi").data)) ∧
    sendMessage (JSValue.str []) true = .error questionError := by
  have h := (c10_question_validation (JSValue.str (("  hi  ").data))).2.2
    (("  hi  ").data) rfl (by decide)
  have ht : jsTrim ((("  hi  ").data)) = ("hi").data := by decide
  rw [ht] at h
  refine ⟨h.1, h.2, ?_⟩
  exact ((c10_question_validation (JSValue.str [])).2.1 (by decide)).1

/-- Claim C5: when streaming has failed, exactly one non-streaming POST is
issued (no retry); on success with answer `X` the bot message's text becomes
exactly `X`, wholesale, whatever fragments were streamed; on failure the bot
message becomes a terminal error interpolating the underlying message, and
no further call is made. -/
theorem c5_fallback_once (botMsgId : Nat) (rest : List Msg) (part : List Str)
    (emsg : Str) (send : SendOutcome) :
    (fallbackActions (.failure part emsg)).count .callSendMessage = 1 ∧
    (∀ ans srcs, send = .okResp ans srcs →
      ∀ m ∈ handleSendFallback botMsgId rest (.failure part emsg) send,
        m.id = botMsgId → m.text = ans ∧ m.isStreaming = false) ∧
    (∀ em, send = .failResp em →
      ∀ m ∈ handleSendFallback botMsgId rest (.failure part emsg) send,
        m.id = botMsgId →
          m.text = errBubbleText ++ em ∧ m.isError = true ∧ m.isStreaming = false) := by
  refine ⟨rfl, ?_, ?_⟩
  · rintro ans srcs rfl m hm hid
    simp only [handleSendFallback] at hm
    obtain ⟨m0, hm0, hEq⟩ := List.mem_map.mp hm
    by_cases h0 : m0.id = botMsgId
    · rw [← hEq]
      simp [h0]
    · rw [if_neg h0] at hEq
      rw [← hEq] at hid
      exact absurd hid h0
  · rintro em rfl m hm hid
    simp only [handleSendFallback] at hm
    obtain ⟨m0, hm0, hEq⟩ := List.mem_map.mp hm
    by_cases h0 : m0.id = botMsgId
    · rw [← hEq]
      simp [h0]
    · rw [if_neg h0] at hEq
      rw [← hEq] at hid
      exact absurd hid h0

/-- Witness for C5: after a failed stream that delivered a fragment, a
successful fallback answer `X` replaces the fragment wholesale, and a failed
fallback produces the error bubble. -/
theorem c5_fallback_once_witness :
    (Msg.mk 1 (("X").data) false false).text = ("X").data ∧
    (Msg.mk 1 (errBubbleText ++ ("boom").data) false true).text =
      errBubbleText ++ ("boom").data := by
  constructor
  · exact ((c5_fallback_once 1 [] [("pa").data] (("e").data) (.okResp (("X").data) [])).2.1
      (("X").data) [] rfl (Msg.mk 1 (("X").data) false false) (by decide) rfl).1
  · exact ((c5_fallback_once 1 [] [("pa").data] (("e").data)
      (.failResp (("boom").data))).2.2
      (("boom").data) rfl (Msg.mk 1 (errBubbleText ++ ("boom").data) false true)
      (by decide) rfl).1

/-- Claim C7: when the response declares an `application/json` content type
(and its body decodes), `readStream` short-circuits: it decodes the whole
body, emits the `answer` field exactly once when present and non-empty,
emits nothing when it is absent or empty, and never runs the line-by-line
parser — the result is independent of the body chunks. -/
theorem c7_json_short_circuit (jp : Str → Option JsonLite) (r : RespModel) (d : JsonLite)
    (hok : r.ok = true) (hct : strContains r.contentType ctJson = true)
    (hb : r.jsonBody = some d) :
    (∀ a, d.answer = some a → a ≠ [] → readStream jp r = .ok [a]) ∧
    (d.answer = none → readStream jp r = .ok []) ∧
    (d.answer = some [] → readStream jp r = .ok []) ∧
    (∀ chunks, readStream jp { r with bodyChunks := chunks } = readStream jp r) := by
  refine ⟨?_, ?_, ?_, ?_⟩
  · intro a ha hne
    simp [readStream, hok, hct, hb, ha, jsOrText, jsTruthy, List.isEmpty_iff, hne]
  · intro ha
    simp [readStream, hok, hct, hb, ha, jsOrText, jsTruthy]
  · intro ha
    simp [readStream, hok, hct, hb, ha, jsOrText, jsTruthy]
  · intro chunks
    simp [readStream, hok, hct, hb]

/-- Witness for C7 on a concrete JSON response carrying `answer: "X"` next
to body chunks that would parse differently line by line. -/
theorem c7_json_short_circuit_witness :
    readStream jsonLiteParse
      { ok := true, status := 200, contentType := ctJson,
        jsonBody := some ⟨none, none, some (("X").data)⟩,
        bodyChunks := [("data: junk" ++ "\n").data] } = .ok [("X").data] :=
  (c7_json_short_circuit jsonLiteParse
    { ok := true, status := 200, contentType := ctJson,
      jsonBody := some ⟨none, none, some (("X").data)⟩,
      bodyChunks := [("data: junk" ++ "\n").data] }
    ⟨none, none, some (("X").data)⟩ rfl (by decide) rfl).1
    (("X").data) rfl (by decide)

/-- Claim C4: for every stream of bytes consumed by the chunked-transport
parser and every split of it into chunks (any boundary between decoded
characters; splits inside a UTF-8 sequence are made equivalent to these by
the `TextDecoder` stream mode the code uses), the emitted token sequence
equals the one produced when the same content arrives unsplit — partial
lines are buffered and only emitted once a newline completes them; in
particular `data: {"token":"Hel` followed by `lo"}\n` yields exactly the one
token `Hello`. -/
theorem c4_chunk_split_invariance :
    (∀ (jp : Str → Option JsonLite) (chunks : List Str),
      (feedAll jp pInit chunks).2 = (feedAll jp pInit [chunks.flatten]).2) ∧
    (feedAll jsonLiteParse pInit
        [("data: \x7b\"token\":\"Hel").data, ("lo\"\x7d" ++ "\n").data]).2 =
      [("Hello").data] := by
  constructor
  · intro jp chunks
    cases chunks with
    | nil => simp [feedAll, feed, pInit, runBuf, runBufF]
    | cons c cs =>
      rw [feedAll_chunk_concat jp cs c pInit,
        feedAll_chunk_concat jp [] (c :: cs).flatten pInit]
      simp [List.flatten_cons]
  · decide

/-- Claim C6: once the terminal sentinel `[DONE]` has been observed the
session is closed — feeding any further payloads (a second `[DONE]`
included) to either the chunked parser or the EventSource handler produces
no further token callback invocation. -/
theorem c6_done_idempotent (jp : Str → Option JsonLite) (cs cs' ps ps' : List Str)
    (h1 : (feedAll jp pInit cs).1.doneAll = true)
    (h2 : (esRun jp false ps).1 = true) :
    (feedAll jp pInit (cs ++ cs')).2 = (feedAll jp pInit cs).2 ∧
    (esRun jp false (ps ++ ps')).2 = (esRun jp false ps).2 := by
  constructor
  · rw [feedAll_split, feedAll_done h1 cs']
    simp
  · exact esRun_done_absorb jp ps false ps' h2

/-- Witness for C6: a second `[DONE]` and trailing payloads after the first
`[DONE]` leave the emitted token sequences unchanged. -/
theorem c6_done_idempotent_witness :
    (feedAll jsonLiteParse pInit
        ([("data: a\ndata: [DONE]\n").data] ++ [("data: b\ndata: [DONE]\n").data])).2 =
      (feedAll jsonLiteParse pInit [("data: a\ndata: [DONE]\n").data]).2 ∧
    (esRun jsonLiteParse false
        ([("tok").data, ("[DONE]").data] ++ [("x").data, ("[DONE]").data])).2 =
      (esRun jsonLiteParse false [("tok").data, ("[DONE]").data]).2 :=
  c6_done_idempotent jsonLiteParse [("data: a\ndata: [DONE]\n").data]
    [("data: b\ndata: [DONE]\n").data] [("tok").data, ("[DONE]").data]
    [("x").data, ("[DONE]").data] (by decide) (by decide)

/-- Claim C8: a payload under a `data:` marker (or an event-stream payload)
that looks like a JSON object but fails to parse is emitted verbatim as a
single raw token — not discarded and not raised as an error; the condition
never reaches the caller because both handlers are total on such input. -/
theorem c8_malformed_payload_verbatim (jp : Str → Option JsonLite) (p : Str)
    (h1 : strStarts ['\x7b'] p = true) (h2 : jp p = none) (h3 : rTrim p = p) :
    handleLine jp (dataMarker ++ ' ' :: p) = ([p], false) ∧
    esHandle jp p = ([p], false) := by
  obtain ⟨t, rfl⟩ := strStarts_cons_head h1
  have hne0 : rTrim ('\x7b' :: t) ≠ [] := by rw [h3]; simp
  have heq : dataMarker ++ ' ' :: ('\x7b' :: t) =
      (dataMarker ++ [' ']) ++ ('\x7b' :: t) := by simp
  have hrt : rTrim (dataMarker ++ ' ' :: ('\x7b' :: t)) =
      dataMarker ++ ' ' :: ('\x7b' :: t) := by
    rw [heq, rTrim_append_of_ne _ hne0, h3]
  have hlt : lTrim (dataMarker ++ ' ' :: ('\x7b' :: t)) =
      dataMarker ++ ' ' :: ('\x7b' :: t) := by
    simp only [dataMarker, List.cons_append]
    exact lTrim_cons_not_ws _ (by decide)
  have hline : jsTrim (dataMarker ++ ' ' :: ('\x7b' :: t)) =
      dataMarker ++ ' ' :: ('\x7b' :: t) := by
    unfold jsTrim
    rw [hlt, hrt]
  have hdrop : (dataMarker ++ ' ' :: ('\x7b' :: t)).drop 5 = ' ' :: ('\x7b' :: t) := by
    have h5 : (5 : Nat) = dataMarker.length := rfl
    rw [h5]
    exact List.drop_left _ _
  have hpay : jsTrim (' ' :: ('\x7b' :: t)) = '\x7b' :: t := by
    unfold jsTrim
    have hl1 : lTrim (' ' :: ('\x7b' :: t)) = '\x7b' :: t := by
      show List.dropWhile jsWhitespaceChar (' ' :: '\x7b' :: t) = '\x7b' :: t
      rw [List.dropWhile_cons, if_pos (by decide), List.dropWhile_cons,
        if_neg (by decide)]
    rw [hl1, h3]
  have hnd : ('\x7b' :: t) ≠ doneSentinel := by simp [doneSentinel]
  constructor
  · simp only [handleLine, hline, hdrop, hpay]
    simp [hnd, h2, strStarts_append, strStarts]
  · simp only [esHandle]
    simp [hnd, h2, strStarts]

/-- Witness for C8 on the concrete truncated payload the split scenario
produces. -/
theorem c8_malformed_payload_verbatim_witness :
    handleLine jsonLiteParse (dataMarker ++ ' ' :: ("\x7b\"token\":").data) =
      ([("\x7b\"token\":").data], false) ∧
    esHandle jsonLiteParse (("\x7b\"token\":").data) =
      ([("\x7b\"token\":").data], false) :=
  c8_malformed_payload_verbatim jsonLiteParse (("\x7b\"token\":").data)
    (by decide) (by decide) (by decide)

/-- Counterexample to claim C9 as stated: a well-formed record whose JSON
`token` field carries surrounding spaces makes the chunked parser emit the
token ` Hi ` — a token with leading and trailing whitespace. -/
theorem c9_counterexample_json_whitespace :
    (feedAll jsonLiteParse pInit
        [("data: \x7b\"token\":\" Hi \"\x7d" ++ "\n").data]).2 = [(" Hi ").data] ∧
    jsTrim ((" Hi ").data) ≠ (" Hi ").data := by
  constructor
  · decide
  · decide

/-- Claim C9 as amended: every token the chunked parser emits is either
already trimmed (raw lines and raw `data:` payloads — so whitespace-only
lines produce no token and whitespace around a raw record's text is lost)
or is the verbatim `token`/`text` field of a successfully JSON-decoded
payload, which may retain whitespace. -/
theorem c9_trimming_amended (jp : Str → Option JsonLite) (line : Str) :
    (jsTrim line = [] → (handleLine jp line).1 = []) ∧
    ∀ t ∈ (handleLine jp line).1,
      jsTrim t = t ∨ ∃ payload o, jp payload = some o ∧ t = tokenOrText o := by
  constructor
  · intro h
    simp [handleLine, h]
  · intro t ht
    simp only [handleLine] at ht
    by_cases hemp : (jsTrim line).isEmpty
    · simp [hemp] at ht
    · rw [if_neg hemp] at ht
      by_cases hd : strStarts dataMarker (jsTrim line) = true
      · rw [if_pos hd] at ht
        by_cases hdone : jsTrim ((jsTrim line).drop 5) = doneSentinel
        · rw [if_pos hdone] at ht
          simp at ht
        · rw [if_neg hdone] at ht
          by_cases hbr : strStarts ['\x7b'] (jsTrim ((jsTrim line).drop 5)) = true
          · rw [if_pos hbr] at ht
            cases hjp : jp (jsTrim ((jsTrim line).drop 5)) with
            | some o =>
              rw [hjp] at ht
              by_cases hte : (tokenOrText o).isEmpty
              · simp [hte] at ht
              · simp [hte] at ht
                right
                exact ⟨_, o, hjp, ht⟩
            | none =>
              rw [hjp] at ht
              simp at ht
              left
              rw [ht]
              exact jsTrim_idem _
          · rw [if_neg hbr] at ht
            by_cases hpe : (jsTrim ((jsTrim line).drop 5)).isEmpty
            · simp [hpe] at ht
            · simp [hpe] at ht
              left
              rw [ht]
              exact jsTrim_idem _
      · rw [if_neg hd] at ht
        simp at ht
        left
        rw [ht]
        exact jsTrim_idem _

/-- Witness for C9 as amended: a padded raw line is emitted trimmed. -/
theorem c9_trimming_amended_witness :
    jsTrim (("tok").data) = ("tok").data ∨
    ∃ payload o, jsonLiteParse payload = some o ∧ ("tok").data = tokenOrText o :=
  (c9_trimming_amended jsonLiteParse (("  tok  ").data)).2 (("tok").data) (by decide)

/-- Counterexample to claim C1 as stated: the EventSource transport is
attempted and fails 590 seconds in; its `cleanup()` clears the shared timer,
so a POST transport that then stays pending is never aborted — the call
hangs instead of failing with the Timeout condition at the 600-second
deadline. -/
theorem c1_timeout_counterexample :
    streamTiming (.errorAt 590) .neverF .neverF = .hangs ∧
    streamTiming (.errorAt 590) .neverF .neverF ≠ .timeoutAt 600 := by
  constructor
  · decide
  · decide

/-- Claim C1 as amended: the 600-second timer is armed once at query
issuance and never re-armed; but when the constructed EventSource transport
fails before the deadline its cleanup clears the timer, so the subsequent
fetch transports can never fail with a Timeout condition; only when the
EventSource transport is never constructed do the fetch transports stay
bounded by the original deadline, producing the Timeout condition at 600
seconds from issuance (not from the transport's own start). -/
theorem c1_timeout_amended (t d : Nat) (post getF : FetchSpec)
    (h : t < streamTimeoutBudget) :
    (∀ u, streamTiming (.errorAt t) post getF ≠ .timeoutAt u) ∧
    (post = .failAfter d → d < streamTimeoutBudget → getF = .neverF →
      streamTiming .unavailableES post getF = .timeoutAt streamTimeoutBudget) ∧
    (post = .neverF →
      streamTiming .unavailableES post getF = .timeoutAt streamTimeoutBudget) := by
  refine ⟨?_, ?_, ?_⟩
  · intro u
    simp only [streamTiming, if_pos h]
    exact fetchPhase_none_no_timeout t post getF u
  · rintro rfl hd rfl
    have hcond : ¬(streamTimeoutBudget ≤ 0 ∨ streamTimeoutBudget < 0 + d) := by
      simp only [streamTimeoutBudget] at hd ⊢
      omega
    simp only [streamTiming, fetchPhase, runFetch, if_neg hcond]
    simp only [gPhase, runFetch]
    have hmx : max streamTimeoutBudget (0 + d) = streamTimeoutBudget :=
      max_eq_left (by simp only [streamTimeoutBudget] at hd ⊢; omega)
    rw [hmx]
  · rintro rfl
    simp only [streamTiming, fetchPhase, runFetch]
    have hm : max streamTimeoutBudget 0 = streamTimeoutBudget := max_eq_left (Nat.zero_le _)
    rw [hm]
    cases getF with
    | failAfter d2 =>
      simp only [gPhase, runFetch]
      rw [if_pos (Or.inl (Nat.le_refl _)), max_self]
    | okAfter d2 =>
      simp only [gPhase, runFetch]
      rw [if_pos (Or.inl (Nat.le_refl _)), max_self]
    | neverF =>
      simp only [gPhase, runFetch]
      rw [max_self]

/-- Witness for C1 as amended, at the spec's own scenario (590 seconds spent
by transport 1): after an EventSource failure no Timeout can occur, while
with no EventSource constructed the deadline aborts pending fetches at
exactly 600 seconds. -/
theorem c1_timeout_amended_witness :
    streamTiming (.errorAt 590) (.failAfter 5) .neverF ≠ .timeoutAt 600 ∧
    streamTiming .unavailableES (.failAfter 5) .neverF = .timeoutAt streamTimeoutBudget ∧
    streamTiming .unavailableES .neverF .neverF = .timeoutAt streamTimeoutBudget := by
  have h1 := c1_timeout_amended 590 5 (.failAfter 5) .neverF (by decide)
  have h2 := c1_timeout_amended 0 0 FetchSpec.neverF FetchSpec.neverF (by decide)
  exact ⟨h1.1 600, h1.2.1 rfl (by decide) rfl, h2.2.2 rfl⟩
